import Mathlib

/-!
Verification development for the LinguaDub dubbing studio
(`src/unnamed/part_000`, `src/services/geminiService.ts`, `src/types.ts`).

All time values are modelled as exact rationals (`ℚ`); the source works with
JavaScript numbers, and every constant appearing in the claims (0.1, 0.02,
0.2, segment times) is a short decimal, so the rational model is the shallow
embedding of the arithmetic the code performs.
-/

namespace Atwi

/-! ## Scheduler (src/unnamed/part_000, `scheduleSegment` lines 304–326,
`playFullPreview` lines 342–344, `handleExport` lines 420–423)

`scheduleSegment` reads a segment's `startTime` and its resolved buffer's
`duration`; the pair is what the scheduling arithmetic consumes, so a
scheduling pass is modelled over a list of such pairs. -/

/-- A dub segment together with its resolved buffer's duration, the two
numbers `scheduleSegment` reads (`segment.startTime` and `buffer.duration`). -/
structure SchedSeg where
  startTime : ℚ
  duration : ℚ
deriving DecidableEq, Inhabited

/-- One step of `scheduleSegment` (lines 309–316): given the cursor
(`lastSegmentEndTimeRef.current`, called `previousEnd` in the source), the
safe play time is `max(idealStart, previousEnd + 0.1)`. -/
def safePlayAt (previousEnd idealStart : ℚ) : ℚ :=
  max idealStart (previousEnd + 1/10)

/-- The scheduler's engine-clock start time (line 314):
`playAt = ctx.currentTime + max(0, safePlayAt - anchorTime)`. -/
def playAt (now anchorTime saf : ℚ) : ℚ :=
  now + max 0 (saf - anchorTime)

/-- A full scheduling pass (the `sorted.forEach(seg => scheduleSegment(seg, 0))`
loop): starting from cursor `cursor`, return the list of safe play times, the
cursor advancing to `safePlayAt + duration` after each segment (line 316). -/
def schedulePass : ℚ → List SchedSeg → List ℚ
  | _, [] => []
  | cursor, s :: rest =>
      let saf := safePlayAt cursor s.startTime
      saf :: schedulePass (saf + s.duration) rest

/-- The cursor value after a full pass (`lastSegmentEndTimeRef.current` once
the `forEach` has finished; read as `finalAudioEnd` at line 423). -/
def finalCursor : ℚ → List SchedSeg → ℚ
  | c, [] => c
  | c, s :: rest => finalCursor (safePlayAt c s.startTime + s.duration) rest

/-- The three-segment scenario of the specification: startTimes
`[0.0, 1.0, 1.05]`, buffer durations `[1.2, 0.3, 0.5]`. -/
def exampleSegs : List SchedSeg :=
  [⟨0, 6/5⟩, ⟨1, 3/10⟩, ⟨21/20, 1/2⟩]

/-! ## Recorder-stop delay (src/unnamed/part_000, `handleExport` onended
handler, lines 428–440) -/

/-- The delay, in milliseconds, between the video's `ended` event and
`recorder.stop()`: the handler computes `extraTime = finalAudioEnd -
videoDuration` and waits `extraTime * 1000 + 200` ms when `extraTime > 0`,
otherwise stops immediately (delay 0). -/
def stopDelayMs (finalAudioEnd videoDuration : ℚ) : ℚ :=
  let extraTime := finalAudioEnd - videoDuration
  if 0 < extraTime then extraTime * 1000 + 200 else 0

/-! ## Buffer trimming (src/unnamed/part_000, `trimAudioBuffer` lines 196–216)

An `AudioBuffer` is its per-channel sample data and its sample rate; in the
Web Audio API every channel of one buffer has the same length, which theorems
assume explicitly where they need it. Samples are on a `[-1, 1]` scale. -/

/-- A decoded audio buffer: per-channel sample data plus the sample rate. -/
structure AudioBuffer where
  channels : List (List ℚ)
  sampleRate : ℚ
deriving DecidableEq

/-- The fixed near-silence threshold `0.02` of `trimAudioBuffer` (line 198). -/
def threshold : ℚ := 2/100

/-- The forward scan (lines 201–203): index of the first sample with
`Math.abs(channelData[i]) > threshold`, or `none` when no sample exceeds. -/
def firstExceed : List ℚ → Option ℕ
  | [] => none
  | x :: xs => if threshold < |x| then some 0 else (firstExceed xs).map (· + 1)

/-- The backward scan (lines 204–206): index of the last sample exceeding the
threshold, or `none` when no sample exceeds. -/
def lastExceed : List ℚ → Option ℕ
  | [] => none
  | x :: xs =>
      match lastExceed xs with
      | some j => some (j + 1)
      | none => if threshold < |x| then some 0 else none

/-- The computed `start` of `trimAudioBuffer`: initialised to 0, set to the
first exceeding index when the forward scan finds one. -/
def trimStart (channelData : List ℚ) : ℕ := (firstExceed channelData).getD 0

/-- The computed `end` (exclusive) of `trimAudioBuffer`: initialised to
`channelData.length`, set to `i + 1` for the last exceeding index `i` when
the backward scan finds one. -/
def trimEnd (channelData : List ℚ) : ℕ :=
  match lastExceed channelData with
  | some j => j + 1
  | none => channelData.length

/-- `trimAudioBuffer` (lines 196–216): scan channel 0 for the trim window
`[start, end)`; if `end ≤ start` return the buffer unchanged, otherwise copy
`oldData[start + i]` for `i < end - start` on every channel (the copy loop is
the `drop`/`take` of each channel; channels of a Web Audio buffer share one
length). The sample rate is preserved (`ctx.createBuffer(..., buffer.sampleRate)`). -/
def trimAudioBuffer (buffer : AudioBuffer) : AudioBuffer :=
  let channelData := buffer.channels.headD []
  let start := trimStart channelData
  let e := trimEnd channelData
  if e ≤ start then buffer
  else { channels := buffer.channels.map (fun ch => (ch.drop start).take (e - start)),
         sampleRate := buffer.sampleRate }

/-! ## Application state (src/types.ts and the component state of
src/unnamed/part_000)

`SessionState` collects the pieces of `DubbingStudio` state the claims are
about: the `status`, the `segments` list, the keys of `audioBuffersRef`
(`bufferIds`), the keys of `activeSourceNodesRef` (`activeIds`), and
`isPlaying`. -/

/-- `AppStatus` (src/types.ts lines 2–11). -/
inductive AppStatus where
  | IDLE
  | PROCESSING_VIDEO
  | ANALYZING
  | READY_TO_DUB
  | SYNTHESIZING
  | EXPORTING
  | COMPLETED
  | ERROR
deriving DecidableEq

/-- `DubSegment` (src/types.ts lines 13–22). -/
structure DubSegment where
  id : String
  startTime : ℚ
  endTime : ℚ
  originalText : String
  translatedText : String
  isSynthesizing : Option Bool := none
  audioUrl : Option String := none
  speakerLabel : String
deriving DecidableEq

/-- The component state `DubbingStudio` keeps in React state and refs, cut to
the fields the claims mention. -/
structure SessionState where
  status : AppStatus
  segments : List DubSegment
  bufferIds : List String
  activeIds : List String
  isPlaying : Bool
deriving DecidableEq

/-- Stable ascending insertion for `sortByStart`. -/
def insertByStart (s : DubSegment) : List DubSegment → List DubSegment
  | [] => [s]
  | t :: rest =>
      if t.startTime < s.startTime then t :: insertByStart s rest else s :: t :: rest

/-- `[...segments].sort((a, b) => a.startTime - b.startTime)` (lines 342 and
420): a stable ascending sort by `startTime`. -/
def sortByStart : List DubSegment → List DubSegment
  | [] => []
  | s :: rest => insertByStart s (sortByStart rest)

/-- `stopAllAudio` (lines 299–302): stop every active source node and clear
the active map. -/
def stopAllAudio (st : SessionState) : SessionState :=
  { st with activeIds := [] }

/-- `activeSourceNodesRef.current.set(id, source)`: `Map.set` keeps the
position of an existing key and appends a new one. -/
def insertActive (active : List String) (id : String) : List String :=
  if active.contains id then active else active ++ [id]

/-- The `sorted.forEach(seg => scheduleSegment(seg, 0))` loop as it acts on
the active map: `scheduleSegment` returns early when a segment has no buffer
(line 306) and otherwise registers the segment's source under its id
(line 324). -/
def scheduleAll (active : List String) (segs : List DubSegment)
    (bufferIds : List String) : List String :=
  segs.foldl
    (fun acc s => if bufferIds.contains s.id then insertActive acc s.id else acc) active

/-- `playFullPreview` (lines 328–349) as it acts on the modelled state: when
playing, pause and `stopAllAudio`; when stopped, sort the segments, reset the
cursor and schedule them all — without any call to `stopAllAudio`. -/
def playFullPreview (st : SessionState) : SessionState :=
  if st.isPlaying then
    { st with activeIds := [], isPlaying := false }
  else
    { st with
        activeIds := scheduleAll st.activeIds (sortByStart st.segments) st.bufferIds,
        isPlaying := true }

/-- `playPreviewSegment` (lines 270–297): return unchanged when the id names
no segment; otherwise `stopAllAudio` first, then register the preview source
under the reserved `preview-tts` handle when the segment has a buffer. -/
def playPreviewSegment (st : SessionState) (id : String) : SessionState :=
  if (st.segments.find? (fun s => s.id = id)).isNone then st
  else
    let cleared := { st with activeIds := ([] : List String) }
    if st.bufferIds.contains id then
      { cleared with activeIds := insertActive cleared.activeIds "preview-tts" }
    else cleared

/-- `handleExport` lines 356–357: the segments whose ids are missing from
`audioBuffersRef`, which the export loop re-synthesizes. -/
def missingAudioIds (segs : List DubSegment) (bufferIds : List String) : List String :=
  (segs.filter (fun s => !(bufferIds.contains s.id))).map (fun s => s.id)

/-- The `onChange` of the translated-text textarea (line 790): replace the
edited segment's `translatedText` and set its `audioUrl` to `undefined`.
Nothing else is touched — in particular not `audioBuffersRef`. -/
def editTranslatedText (segs : List DubSegment) (id text : String) : List DubSegment :=
  segs.map (fun s =>
    if s.id = id then { s with translatedText := text, audioUrl := none } else s)

/-- The state effect of the textarea `onChange`: a single `setSegments`. -/
def handleTranslatedTextChange (st : SessionState) (id text : String) : SessionState :=
  { st with segments := editTranslatedText st.segments id text }

/-- `handleExport` (lines 351–441) as it acts on the modelled state, for a
session whose segments all have buffers — `missingAudioIds segments bufferIds
= []`, so the auto-synthesis loop of lines 356–378 (which otherwise mutates
`segments` and the buffer store before the capture check) is a no-op; every
theorem about `handleExport` carries that hypothesis. The flags say whether
`captureStream` / `mozCaptureStream` exist on the video element. Returns the
new state, the `alert` message if one was raised, and whether a recorder was
created. With no capture API (lines 387–391) the function alerts, sets
`COMPLETED` and returns before any recorder, scheduling or file machinery
runs; otherwise it clears the active set, reschedules every buffered segment
from cursor 0 and starts the recorder. -/
def handleExport (hasCaptureStream hasMozCaptureStream : Bool) (st : SessionState) :
    SessionState × Option String × Bool :=
  if st.segments.isEmpty then (st, none, false)
  else
    let st1 := { st with status := AppStatus.EXPORTING, isPlaying := false,
                         activeIds := ([] : List String) }
    if hasCaptureStream || hasMozCaptureStream then
      let st2 := { st1 with
        activeIds := scheduleAll st1.activeIds (sortByStart st1.segments) st1.bufferIds }
      (st2, none, true)
    else
      ({ st1 with status := AppStatus.COMPLETED }, some "Browser capture not supported.", false)

/-! ## WAV container (src/services/geminiService.ts, `pcmToWav` lines
217–251, `generateSpeech` lines 149–157)

Bytes are naturals below 256; `writeString` writes the ASCII codes of its
four-character tags, `setUint32`/`setUint16` write little-endian. -/

/-- A 16-bit little-endian value as written by `view.setUint16(off, n, true)`. -/
def u16le (n : ℕ) : List ℕ := [n % 256, (n / 256) % 256]

/-- A 32-bit little-endian value as written by `view.setUint32(off, n, true)`. -/
def u32le (n : ℕ) : List ℕ :=
  [n % 256, (n / 256) % 256, (n / 65536) % 256, (n / 16777216) % 256]

/-- `pcmToWav` (lines 217–251): the 44-byte RIFF/WAVE header followed by the
raw PCM bytes, in write order — "RIFF" at 0, `36 + dataSize` at 4, "WAVE" at
8, "fmt " at 12, subchunk size 16 at 16, format code 1 at 20, channel count 1
at 22, the sample rate at 24, `(sampleRate * numChannels * bitsPerSample) / 8`
at 28, `(numChannels * bitsPerSample) / 8` at 32, bits-per-sample 16 at 34,
"data" at 36, `dataSize` at 40, PCM data from 44 (`numChannels = 1`,
`bitsPerSample = 16`). -/
def pcmToWav (pcmData : List ℕ) (sampleRate : ℕ) : List ℕ :=
  [82, 73, 70, 70]
  ++ u32le (36 + pcmData.length)
  ++ [87, 65, 86, 69]
  ++ [102, 109, 116, 32]
  ++ u32le 16
  ++ u16le 1
  ++ u16le 1
  ++ u32le sampleRate
  ++ u32le ((sampleRate * 1 * 16) / 8)
  ++ u16le ((1 * 16) / 8)
  ++ u16le 16
  ++ [100, 97, 116, 97]
  ++ u32le pcmData.length
  ++ pcmData

/-- Modelled from the spec: the decode step of the round-trip is performed by
the browser's `decodeAudioData`, which is not part of this repository; this
decoder follows §6 of the specification — a minimal RIFF/WAVE container whose
44-byte header carries "RIFF", "WAVE", "fmt ", subchunk size 16, PCM format,
the channel count at offset 22, the sample rate at offset 24, "data" at 36
and the little-endian data size at 40, followed by the raw PCM bytes. It
returns the declared channel count, sample rate and PCM data. -/
def wavParse (bytes : List ℕ) : Option (ℕ × ℕ × List ℕ) :=
  match bytes with
  | r1 :: r2 :: r3 :: r4 :: _ :: _ :: _ :: _ :: w1 :: w2 :: w3 :: w4 ::
    f1 :: f2 :: f3 :: f4 :: g1 :: g2 :: g3 :: g4 :: a1 :: a2 :: n1 :: n2 ::
    sr1 :: sr2 :: sr3 :: sr4 :: _ :: _ :: _ :: _ :: _ :: _ ::
    _ :: _ :: d1 :: d2 :: d3 :: d4 :: z1 :: z2 :: z3 :: z4 :: rest =>
      if [r1, r2, r3, r4] = [82, 73, 70, 70]
          ∧ [w1, w2, w3, w4] = [87, 65, 86, 69]
          ∧ [f1, f2, f3, f4] = [102, 109, 116, 32]
          ∧ g1 + 256 * g2 + 65536 * g3 + 16777216 * g4 = 16
          ∧ a1 + 256 * a2 = 1
          ∧ [d1, d2, d3, d4] = [100, 97, 116, 97]
      then some (n1 + 256 * n2,
                 sr1 + 256 * sr2 + 65536 * sr3 + 16777216 * sr4,
                 rest.take (z1 + 256 * z2 + 65536 * z3 + 16777216 * z4))
      else none
  | _ => none

/-! ## Speaker-to-voice assignment (src/unnamed/part_000, `startAnalysis`
lines 230–241; src/types.ts, `VOICES` lines 58–64) -/

/-- `TTSVoice` (src/types.ts lines 52–56). -/
structure TTSVoice where
  name : String
  gender : String
  id : String
deriving DecidableEq

/-- `VOICES` (src/types.ts lines 58–64). -/
def VOICES : List TTSVoice :=
  [⟨"Kore", "Female", "Kore"⟩, ⟨"Puck", "Male", "Puck"⟩,
   ⟨"Fenrir", "Male", "Fenrir"⟩, ⟨"Charon", "Male", "Charon"⟩,
   ⟨"Zephyr", "Female", "Zephyr"⟩]

/-- Out-of-range default for `List.getD`; `VOICES[rotateIdx]` is always in
range in the source, so this value is never read. -/
def dfltVoice : TTSVoice := ⟨"", "", ""⟩

/-- Iteration of a JavaScript `Set` built by insertion: keep the first
occurrence of each element, in order. -/
def dedupFirstAux (seen : List String) : List String → List String
  | [] => []
  | x :: xs =>
      if seen.contains x then dedupFirstAux seen xs
      else x :: dedupFirstAux (x :: seen) xs

/-- `Array.from(new Set(results.map(s => s.speakerLabel)))` (line 230):
distinct speaker labels in order of first appearance. -/
def dedupFirst (l : List String) : List String := dedupFirstAux [] l

/-- The labels of an analysed segment list, `results.map(s => s.speakerLabel)`. -/
def speakerLabels (segs : List DubSegment) : List String :=
  segs.map (fun s => s.speakerLabel)

/-- The detected speakers of `startAnalysis` (line 230). -/
def detectedSpeakers (segs : List DubSegment) : List String :=
  dedupFirst (speakerLabels segs)

/-- The voice the `speakers.forEach` loop (lines 233–240) assigns to the
speaker at position `idx`: the default voice at position 0, otherwise
`VOICES[(defaultIdx + idx) % VOICES.length]` where `defaultIdx =
VOICES.findIndex(v => v.id === defaultVoice)`. When `findIndex` misses it
yields -1 in JavaScript, so `rotateIdx = (-1 + idx) % VOICES.length =
(idx - 1) % VOICES.length` for the `idx ≥ 1` uses — the `none` branch. -/
def voiceForIdx (defaultVoice : String) (idx : ℕ) : String :=
  if idx = 0 then defaultVoice
  else
    match VOICES.findIdx? (fun v => v.id = defaultVoice) with
    | some d => (VOICES.getD ((d + idx) % VOICES.length) dfltVoice).id
    | none => (VOICES.getD ((idx - 1) % VOICES.length) dfltVoice).id

/-- The `newMap` object built by the `speakers.forEach((spk, idx) => ...)`
loop, as the association list of its distinct keys in insertion order. -/
def buildSpeakerMapAux (defaultVoice : String) : ℕ → List String → List (String × String)
  | _, [] => []
  | idx, spk :: rest =>
      (spk, voiceForIdx defaultVoice idx) :: buildSpeakerMapAux defaultVoice (idx + 1) rest

/-- The speaker map `startAnalysis` stores via `setSpeakerMap(newMap)`. -/
def buildSpeakerMap (defaultVoice : String) (speakers : List String) :
    List (String × String) :=
  buildSpeakerMapAux defaultVoice 0 speakers

/-- A concrete analysed segment for counterexamples and witnesses. -/
def exSeg : DubSegment :=
  { id := "seg-0", startTime := 0, endTime := 1, originalText := "Hello",
    translatedText := "T0", speakerLabel := "Speaker 1" }

/-- A second concrete segment, spoken by a different speaker. -/
def exSeg2 : DubSegment :=
  { id := "seg-1", startTime := 2, endTime := 3, originalText := "World",
    translatedText := "T1", speakerLabel := "Speaker 2" }

/-- A concrete session: one segment with a synthesized buffer, a still-active
`preview-tts` source left over from a single-segment preview, stopped. -/
def exState : SessionState :=
  { status := AppStatus.READY_TO_DUB, segments := [exSeg], bufferIds := ["seg-0"],
    activeIds := ["preview-tts"], isPlaying := false }

end Atwi

namespace Atwi

/-- Helper recurrence for safe play times: in any pass, the safe play time of
segment `i+1` is `max` of its own start time and the previous segment's safe
play time plus that segment's duration plus the 0.1 s gap. -/
theorem schedulePass_getD_succ (c : ℚ) (segs : List SchedSeg) (i : ℕ)
    (h : i + 1 < segs.length) :
    (schedulePass c segs).getD (i+1) 0 =
      max ((segs.getD (i+1) default).startTime)
        ((schedulePass c segs).getD i 0 + (segs.getD i default).duration + 1/10) := by
  induction segs generalizing c i with
  | nil => simp at h
  | cons s rest ih =>
    cases i with
    | zero =>
      cases rest with
      | nil => simp at h
      | cons r rest2 =>
        simp only [schedulePass, List.getD_cons_succ, List.getD_cons_zero]
        simp [schedulePass, safePlayAt, add_assoc]
    | succ j =>
      have hj : j + 1 < rest.length := by
        simpa [List.length_cons, Nat.succ_lt_succ_iff] using h
      simpa [schedulePass, List.getD_cons_succ] using
        ih (safePlayAt c s.startTime + s.duration) j hj

/-- C1, counterexample: for the spec's three-segment scenario (startTimes
`[0.0, 1.0, 1.05]`, buffer durations `[1.2, 0.3, 0.5]`), a pass from cursor 0
does not produce the claimed safe play times `[0.0, 1.3, 1.6]`. -/
theorem c1_example_safe_times_ne_claimed :
    schedulePass 0 exampleSegs ≠ [0, 13/10, 8/5] := by
  norm_num [schedulePass, safePlayAt, exampleSegs, max_def]

/-- C1 (amended): in a pass from cursor 0, the first segment's safe play time
is `max(its startTime, 0.1)` (the reset cursor acts as a previous end of 0);
every later segment's safe play time is `max(its own startTime, previous
segment's safe play time + previous buffer duration + 0.1)`; for the spec's
three-segment scenario the computed safe play times are `[0.1, 1.4, 1.8]`. -/
theorem c1_safe_play_time_recurrence :
    (∀ s0 : SchedSeg, ∀ rest : List SchedSeg,
        (schedulePass 0 (s0 :: rest)).getD 0 0 = max s0.startTime (1/10))
  ∧ (∀ segs : List SchedSeg, ∀ i : ℕ, i + 1 < segs.length →
        (schedulePass 0 segs).getD (i+1) 0 =
          max ((segs.getD (i+1) default).startTime)
            ((schedulePass 0 segs).getD i 0 + (segs.getD i default).duration + 1/10))
  ∧ schedulePass 0 exampleSegs = [1/10, 7/5, 9/5] := by
  refine ⟨fun s0 rest => ?_, fun segs i h => schedulePass_getD_succ 0 segs i h, ?_⟩
  · simp [schedulePass, safePlayAt]
  · norm_num [schedulePass, safePlayAt, exampleSegs, max_def]

/-- Witness for C1: the recurrence instantiated at the scenario's second
segment. -/
theorem c1_safe_play_time_recurrence_witness :
    0 + 1 < exampleSegs.length ∧
    (schedulePass 0 exampleSegs).getD 1 0 =
      max ((exampleSegs.getD 1 default).startTime)
        ((schedulePass 0 exampleSegs).getD 0 0 + (exampleSegs.getD 0 default).duration + 1/10) :=
  ⟨by norm_num [exampleSegs], c1_safe_play_time_recurrence.2.1 exampleSegs 0
    (by norm_num [exampleSegs])⟩

/-- C3: in a pass from cursor 0 over a list sorted by ascending startTime,
every adjacent pair satisfies
`safePlayTime(i+1) ≥ safePlayTime(i) + duration(i) + 0.1`. -/
theorem c3_adjacent_gap (segs : List SchedSeg)
    (_hsorted : segs.Pairwise (fun a b => a.startTime ≤ b.startTime))
    (i : ℕ) (h : i + 1 < segs.length) :
    (schedulePass 0 segs).getD i 0 + (segs.getD i default).duration + 1/10 ≤
      (schedulePass 0 segs).getD (i+1) 0 := by
  rw [schedulePass_getD_succ 0 segs i h]
  exact le_max_right _ _

/-- Witness for C3: the gap invariant at the first adjacent pair of the
three-segment scenario. -/
theorem c3_adjacent_gap_witness :
    exampleSegs.Pairwise (fun a b => a.startTime ≤ b.startTime) ∧
    0 + 1 < exampleSegs.length ∧
    (schedulePass 0 exampleSegs).getD 0 0 + (exampleSegs.getD 0 default).duration + 1/10 ≤
      (schedulePass 0 exampleSegs).getD 1 0 :=
  ⟨by norm_num [exampleSegs, List.pairwise_cons], by norm_num [exampleSegs],
    c3_adjacent_gap exampleSegs (by norm_num [exampleSegs, List.pairwise_cons]) 0
      (by norm_num [exampleSegs])⟩

/-- C6: on the video's `ended` event during export, if the assembled-timeline
end exceeds the video duration the recorder is stopped after
`(end − duration + 0.2) × 1000` milliseconds, otherwise immediately (delay 0);
for video duration 10.0 s and assembled-timeline end 10.8 s the wait is
1000 ms, i.e. exactly 1.0 s. -/
theorem c6_recorder_stop_delay :
    (∀ finalAudioEnd videoDuration : ℚ, videoDuration < finalAudioEnd →
        stopDelayMs finalAudioEnd videoDuration =
          (finalAudioEnd - videoDuration + 2/10) * 1000)
  ∧ (∀ finalAudioEnd videoDuration : ℚ, finalAudioEnd ≤ videoDuration →
        stopDelayMs finalAudioEnd videoDuration = 0)
  ∧ stopDelayMs (54/5) 10 = 1000 := by
  refine ⟨fun fae vd h => ?_, fun fae vd h => ?_, by norm_num [stopDelayMs]⟩
  · rw [stopDelayMs, if_pos (sub_pos.mpr h)]
    ring
  · rw [stopDelayMs, if_neg (not_lt.mpr (sub_nonpos.mpr h))]

/-- Witness for C6: the tail-wait formula at the spec's 10.0 s / 10.8 s
scenario. -/
theorem c6_recorder_stop_delay_witness :
    (10 : ℚ) < 54/5 ∧ stopDelayMs (54/5) 10 = (54/5 - 10 + 2/10) * 1000 :=
  ⟨by norm_num, c6_recorder_stop_delay.1 (54/5) 10 (by norm_num)⟩

/-! ### Trimming lemmas -/

/-- If no sample exceeds the threshold, the forward scan finds nothing. -/
theorem firstExceed_eq_none (l : List ℚ) (h : ∀ x ∈ l, ¬ threshold < |x|) :
    firstExceed l = none := by
  induction l with
  | nil => rfl
  | cons x xs ih =>
    simp only [firstExceed, if_neg (h x (by simp))]
    rw [ih (fun y hy => h y (by simp [hy]))]
    rfl

/-- If no sample exceeds the threshold, the backward scan finds nothing. -/
theorem lastExceed_eq_none (l : List ℚ) (h : ∀ x ∈ l, ¬ threshold < |x|) :
    lastExceed l = none := by
  induction l with
  | nil => rfl
  | cons x xs ih =>
    simp only [lastExceed, ih (fun y hy => h y (by simp [hy]))]
    exact if_neg (h x (by simp))

/-- A found forward-scan index is in range and its sample exceeds. -/
theorem exists_of_firstExceed_eq_some (l : List ℚ) (s : ℕ)
    (h : firstExceed l = some s) : s < l.length ∧ threshold < |l.getD s 0| := by
  induction l generalizing s with
  | nil => simp [firstExceed] at h
  | cons x xs ih =>
    by_cases hx : threshold < |x|
    · simp [firstExceed, hx] at h
      subst h
      simpa using hx
    · simp [firstExceed, hx] at h
      obtain ⟨t, ht, rfl⟩ := h
      obtain ⟨h1, h2⟩ := ih t ht
      exact ⟨by simpa using h1, by simpa using h2⟩

/-- A found backward-scan index is in range and its sample exceeds. -/
theorem exists_of_lastExceed_eq_some (l : List ℚ) (j : ℕ)
    (h : lastExceed l = some j) : j < l.length ∧ threshold < |l.getD j 0| := by
  induction l generalizing j with
  | nil => simp [lastExceed] at h
  | cons x xs ih =>
    cases hxs : lastExceed xs with
    | some t =>
      simp [lastExceed, hxs] at h
      subst h
      obtain ⟨h1, h2⟩ := ih t hxs
      exact ⟨by simpa using h1, by simpa using h2⟩
    | none =>
      by_cases hx : threshold < |x|
      · simp [lastExceed, hxs, hx] at h
        subst h
        simpa using hx
      · simp [lastExceed, hxs, hx] at h

/-- Unfolding of the backward scan on a cons cell. -/
theorem lastExceed_cons (x : ℚ) (xs : List ℚ) :
    lastExceed (x :: xs) =
      match lastExceed xs with
      | some j => some (j + 1)
      | none => if threshold < |x| then some 0 else none := rfl

/-- When the head exceeds the threshold the forward scan stops at index 0. -/
theorem firstExceed_cons_of_exceed (x : ℚ) (xs : List ℚ) (hx : threshold < |x|) :
    firstExceed (x :: xs) = some 0 := by
  simp [firstExceed, hx]

/-- When the final sample exceeds the threshold, the backward scan finds
exactly the final index. -/
theorem lastExceed_eq_last (l : List ℚ) (hne : l ≠ [])
    (h : threshold < |l.getD (l.length - 1) 0|) :
    lastExceed l = some (l.length - 1) := by
  induction l with
  | nil => simp at hne
  | cons x xs ih =>
    cases xs with
    | nil =>
      have h0 : threshold < |x| := by simpa using h
      simp [lastExceed, h0]
    | cons y ys =>
      have hne2 : (y :: ys) ≠ [] := by simp
      have hlen : (x :: y :: ys : List ℚ).length - 1 = (y :: ys : List ℚ).length - 1 + 1 := by
        simp
      rw [hlen] at h
      rw [List.getD_cons_succ] at h
      have hys := ih hne2 h
      rw [lastExceed_cons, hys, hlen]

/-- The forward scan finds nothing exactly when every sample is at or below
the threshold. -/
theorem firstExceed_eq_none_iff (l : List ℚ) :
    firstExceed l = none ↔ ∀ x ∈ l, ¬ threshold < |x| := by
  constructor
  · intro h x hx
    induction l with
    | nil => simp at hx
    | cons y ys ih =>
      by_cases hy : threshold < |y|
      · simp [firstExceed, hy] at h
      · simp [firstExceed, hy] at h
        rcases List.mem_cons.mp hx with rfl | hx2
        · exact hy
        · exact ih h hx2
  · exact firstExceed_eq_none l

/-- The backward scan finds nothing exactly when every sample is at or below
the threshold. -/
theorem lastExceed_eq_none_iff (l : List ℚ) :
    lastExceed l = none ↔ ∀ x ∈ l, ¬ threshold < |x| := by
  constructor
  · intro h x hx
    induction l with
    | nil => simp at hx
    | cons y ys ih =>
      cases hys : lastExceed ys with
      | some t => simp [lastExceed_cons, hys] at h
      | none =>
        rw [lastExceed_cons, hys] at h
        by_cases hy : threshold < |y|
        · simp [hy] at h
        · rcases List.mem_cons.mp hx with rfl | hx2
          · exact hy
          · exact ih hys hx2
  · exact lastExceed_eq_none l

/-- Reading off `trimEnd` from an unsuccessful backward scan. -/
theorem trimEnd_eq_of_lastExceed_none (l : List ℚ) (h : lastExceed l = none) :
    trimEnd l = l.length := by
  simp [trimEnd, h]

/-- Reading off `trimEnd` from a successful backward scan. -/
theorem trimEnd_eq_of_lastExceed_some (l : List ℚ) (j : ℕ) (h : lastExceed l = some j) :
    trimEnd l = j + 1 := by
  simp [trimEnd, h]

/-- The computed trim end never exceeds the channel length. -/
theorem trimEnd_le_length (cd : List ℚ) : trimEnd cd ≤ cd.length := by
  unfold trimEnd
  cases h : lastExceed cd with
  | none => simp
  | some j => exact (exists_of_lastExceed_eq_some cd j h).1

/-- In the copying regime the trim start is in range. -/
theorem trimStart_lt_length (cd : List ℚ) (h : trimStart cd < trimEnd cd) :
    trimStart cd < cd.length :=
  lt_of_lt_of_le h (trimEnd_le_length cd)

/-- Length of the copied channel-0 window. -/
theorem length_trimmed (cd : List ℚ) (h : trimStart cd < trimEnd cd) :
    ((cd.drop (trimStart cd)).take (trimEnd cd - trimStart cd)).length
      = trimEnd cd - trimStart cd := by
  have h1 := trimEnd_le_length cd
  simp only [List.length_take, List.length_drop]
  omega

/-- The trimmed channel 0 starts at a sample already exceeding the threshold,
so a re-scan keeps the whole window: its trim start is 0. -/
theorem trimStart_trimmed (cd : List ℚ) (h : trimStart cd < trimEnd cd) :
    trimStart ((cd.drop (trimStart cd)).take (trimEnd cd - trimStart cd)) = 0 := by
  cases hf : firstExceed cd with
  | none =>
    have hs : trimStart cd = 0 := by simp [trimStart, hf]
    have hl : lastExceed cd = none :=
      (lastExceed_eq_none_iff cd).mpr ((firstExceed_eq_none_iff cd).mp hf)
    have he : trimEnd cd = cd.length := by simp [trimEnd, hl]
    rw [hs, he, List.drop_zero, Nat.sub_zero, List.take_length]
    simp [trimStart, hf]
  | some i =>
    have hs : trimStart cd = i := by simp [trimStart, hf]
    obtain ⟨hilen, hex⟩ := exists_of_firstExceed_eq_some cd i hf
    have hpos : 0 < trimEnd cd - trimStart cd := by omega
    obtain ⟨m, hm⟩ := Nat.exists_eq_add_of_lt hpos
    rw [hs] at hm ⊢
    rw [List.drop_eq_getElem_cons hilen, hm]
    rw [Nat.zero_add, List.take_succ_cons]
    rw [trimStart, firstExceed_cons_of_exceed]
    · rfl
    · rw [← List.getD_eq_getElem cd 0 hilen]
      exact hex

/-- The trimmed channel 0 ends at a sample already exceeding the threshold,
so a re-scan keeps the whole window: its trim end is its length. -/
theorem trimEnd_trimmed (cd : List ℚ) (h : trimStart cd < trimEnd cd) :
    trimEnd ((cd.drop (trimStart cd)).take (trimEnd cd - trimStart cd))
      = trimEnd cd - trimStart cd := by
  cases hl : lastExceed cd with
  | none =>
    have hf : firstExceed cd = none :=
      (firstExceed_eq_none_iff cd).mpr ((lastExceed_eq_none_iff cd).mp hl)
    have hs : trimStart cd = 0 := by simp [trimStart, hf]
    have he : trimEnd cd = cd.length := by simp [trimEnd, hl]
    rw [hs, he, List.drop_zero, Nat.sub_zero, List.take_length, he]
  | some j =>
    have he : trimEnd cd = j + 1 := by simp [trimEnd, hl]
    obtain ⟨hjlen, hex⟩ := exists_of_lastExceed_eq_some cd j hl
    have hlen := length_trimmed cd h
    have hne : (cd.drop (trimStart cd)).take (trimEnd cd - trimStart cd) ≠ [] := by
      intro hc
      rw [hc] at hlen
      simp at hlen
      omega
    have hlast : threshold <
        |((cd.drop (trimStart cd)).take (trimEnd cd - trimStart cd)).getD
          (((cd.drop (trimStart cd)).take (trimEnd cd - trimStart cd)).length - 1) 0| := by
      rw [hlen]
      have hidx : trimEnd cd - trimStart cd - 1 <
          ((cd.drop (trimStart cd)).take (trimEnd cd - trimStart cd)).length := by
        rw [hlen]; omega
      rw [List.getD_eq_getElem _ _ hidx]
      rw [List.getElem_take]
      rw [List.getElem_drop]
      have hj : trimStart cd + (trimEnd cd - trimStart cd - 1) = j := by omega
      simp only [hj]
      rw [← List.getD_eq_getElem cd 0 hjlen]
      exact hex
    have hle := lastExceed_eq_last _ hne hlast
    rw [trimEnd_eq_of_lastExceed_some _ _ hle, hlen]
    omega

/-- The degenerate branch of `trimAudioBuffer` (line 207). -/
theorem trimAudioBuffer_of_le (b : AudioBuffer)
    (h : trimEnd (b.channels.headD []) ≤ trimStart (b.channels.headD [])) :
    trimAudioBuffer b = b := by
  simp only [trimAudioBuffer]
  rw [if_pos h]

/-- The copying branch of `trimAudioBuffer` (lines 208–215). -/
theorem trimAudioBuffer_of_lt (b : AudioBuffer)
    (h : trimStart (b.channels.headD []) < trimEnd (b.channels.headD [])) :
    trimAudioBuffer b =
      { channels := b.channels.map (fun ch =>
          (ch.drop (trimStart (b.channels.headD []))).take
            (trimEnd (b.channels.headD []) - trimStart (b.channels.headD []))),
        sampleRate := b.sampleRate } := by
  simp only [trimAudioBuffer]
  rw [if_neg (Nat.not_le.mpr h)]

/-- C7: trimming is idempotent — `trim(trim(b)) = trim(b)` for every buffer,
because the first and last channel-0 samples of a trimmed buffer already
exceed the 0.02 threshold (and a buffer returned unchanged re-trims to
itself). -/
theorem c7_trim_idempotent (b : AudioBuffer) :
    trimAudioBuffer (trimAudioBuffer b) = trimAudioBuffer b := by
  by_cases h : trimEnd (b.channels.headD []) ≤ trimStart (b.channels.headD [])
  · rw [trimAudioBuffer_of_le b h, trimAudioBuffer_of_le b h]
  · push_neg at h
    have hcdne : b.channels.headD [] ≠ [] := by
      intro hc
      rw [hc] at h
      simp [trimStart, trimEnd, firstExceed, lastExceed] at h
    have hchne : b.channels ≠ [] := by
      intro hc
      apply hcdne
      rw [hc]
      rfl
    obtain ⟨c0, rest, hch⟩ := List.exists_cons_of_ne_nil hchne
    rw [trimAudioBuffer_of_lt b h]
    have hhead :
        ((b.channels.map (fun ch =>
            (ch.drop (trimStart (b.channels.headD []))).take
              (trimEnd (b.channels.headD []) - trimStart (b.channels.headD [])))).headD [])
          = ((b.channels.headD []).drop (trimStart (b.channels.headD []))).take
              (trimEnd (b.channels.headD []) - trimStart (b.channels.headD [])) := by
      rw [hch]
      rfl
    have hs0 := trimStart_trimmed _ h
    have he0 := trimEnd_trimmed _ h
    have hlt : trimStart (((b.channels.map (fun ch =>
        (ch.drop (trimStart (b.channels.headD []))).take
          (trimEnd (b.channels.headD []) - trimStart (b.channels.headD [])))).headD []))
        < trimEnd (((b.channels.map (fun ch =>
        (ch.drop (trimStart (b.channels.headD []))).take
          (trimEnd (b.channels.headD []) - trimStart (b.channels.headD [])))).headD [])) := by
      rw [hhead, hs0, he0]
      omega
    rw [trimAudioBuffer_of_lt _ hlt]
    simp only [hhead, hs0, he0]
    congr 1
    rw [List.map_map]
    apply List.map_congr_left
    intro ch _
    simp only [Function.comp_apply, List.drop_zero, Nat.sub_zero]
    apply List.take_of_length_le
    simp only [List.length_take, List.length_drop]
    omega

/-- C8: for a buffer (equal-length channels, as the Web Audio API guarantees)
whose channel 0 has no sample with absolute amplitude above 0.02, trimming
returns the buffer unchanged; likewise whenever the computed trim end is at
most the trim start; and trimming a buffer with nonempty channel 0 never
produces an empty channel 0. -/
theorem c8_trim_below_threshold (b : AudioBuffer)
    (hw : ∀ ch ∈ b.channels, ch.length = (b.channels.headD []).length) :
    ((∀ x ∈ b.channels.headD [], ¬ threshold < |x|) → trimAudioBuffer b = b)
  ∧ (trimEnd (b.channels.headD []) ≤ trimStart (b.channels.headD []) →
      trimAudioBuffer b = b)
  ∧ (0 < (b.channels.headD []).length →
      0 < ((trimAudioBuffer b).channels.headD []).length) := by
  refine ⟨?_, trimAudioBuffer_of_le b, ?_⟩
  · intro hbelow
    by_cases hle : trimEnd (b.channels.headD []) ≤ trimStart (b.channels.headD [])
    · exact trimAudioBuffer_of_le b hle
    · push_neg at hle
      have hf : firstExceed (b.channels.headD []) = none :=
        (firstExceed_eq_none_iff _).mpr hbelow
      have hl : lastExceed (b.channels.headD []) = none :=
        (lastExceed_eq_none_iff _).mpr hbelow
      have hs : trimStart (b.channels.headD []) = 0 := by
        rw [trimStart, hf]
        rfl
      have he : trimEnd (b.channels.headD []) = (b.channels.headD []).length :=
        trimEnd_eq_of_lastExceed_none _ hl
      rw [trimAudioBuffer_of_lt b hle, hs, he]
      simp only [List.drop_zero, Nat.sub_zero]
      have hmap : b.channels.map (fun ch => ch.take ((b.channels.headD []).length))
          = b.channels := by
        calc b.channels.map (fun ch => ch.take ((b.channels.headD []).length))
            = b.channels.map id :=
              List.map_congr_left (fun ch hch =>
                List.take_of_length_le (le_of_eq (hw ch hch)))
          _ = b.channels := List.map_id _
      rw [hmap]
  · intro hpos
    by_cases hle : trimEnd (b.channels.headD []) ≤ trimStart (b.channels.headD [])
    · rw [trimAudioBuffer_of_le b hle]
      exact hpos
    · push_neg at hle
      have hchne : b.channels ≠ [] := by
        intro hc
        rw [hc] at hpos
        simp at hpos
      obtain ⟨c0, rest, hch⟩ := List.exists_cons_of_ne_nil hchne
      rw [trimAudioBuffer_of_lt b hle]
      have hhead :
          ((b.channels.map (fun ch =>
              (ch.drop (trimStart (b.channels.headD []))).take
                (trimEnd (b.channels.headD []) - trimStart (b.channels.headD [])))).headD [])
            = ((b.channels.headD []).drop (trimStart (b.channels.headD []))).take
                (trimEnd (b.channels.headD []) - trimStart (b.channels.headD [])) := by
        rw [hch]
        rfl
      rw [hhead, length_trimmed _ hle]
      omega

/-- Witness for C8: a two-sample buffer whose samples sit at amplitude 0.01,
below the 0.02 threshold, is returned unchanged. -/
theorem c8_trim_below_threshold_witness :
    (∀ ch ∈ (AudioBuffer.mk [[1/100, 1/100]] 24000).channels,
        ch.length = ((AudioBuffer.mk [[1/100, 1/100]] 24000).channels.headD []).length)
  ∧ trimAudioBuffer (AudioBuffer.mk [[1/100, 1/100]] 24000)
      = AudioBuffer.mk [[1/100, 1/100]] 24000 := by
  have hw : ∀ ch ∈ (AudioBuffer.mk [[1/100, 1/100]] 24000).channels,
      ch.length = ((AudioBuffer.mk [[1/100, 1/100]] 24000).channels.headD []).length := by
    intro ch hch
    have hch2 : ch = [1/100, 1/100] := by simpa using hch
    rw [hch2]
    rfl
  have hbelow : ∀ x ∈ (AudioBuffer.mk [[1/100, 1/100]] 24000).channels.headD [],
      ¬ threshold < |x| := by
    intro x hx
    simp at hx
    rw [hx, threshold, abs_of_pos (by norm_num)]
    norm_num
  exact ⟨hw, (c8_trim_below_threshold _ hw).1 hbelow⟩

/-! ### Session-state theorems (C2, C4, C5) -/

/-- C2, counterexample: with neither `captureStream` nor `mozCaptureStream`
available, export on the concrete session ends in `COMPLETED`, not in the
`ERROR` state the claim names. -/
theorem c2_capture_unsupported_not_error :
    (handleExport false false exState).1.status ≠ AppStatus.ERROR ∧
    (handleExport false false exState).1.status = AppStatus.COMPLETED := by
  constructor
  · decide
  · decide

/-- C2 (amended): for a session whose segments all have synthesized buffers
(so the pre-capture auto-synthesis loop is a no-op), when the runtime can
capture the video element as a stream in neither way, export alerts
"Browser capture not supported.", transitions to the `COMPLETED` terminal
state (not `ERROR`), creates no recorder — hence produces no output file —
and leaves segments and buffers intact. -/
theorem c2_capture_unsupported_behavior (st : SessionState)
    (hne : st.segments ≠ [])
    (_hbuf : missingAudioIds st.segments st.bufferIds = []) :
    (handleExport false false st).1.status = AppStatus.COMPLETED
  ∧ (handleExport false false st).2.1 = some "Browser capture not supported."
  ∧ (handleExport false false st).2.2 = false
  ∧ (handleExport false false st).1.segments = st.segments
  ∧ (handleExport false false st).1.bufferIds = st.bufferIds := by
  have hne2 : st.segments.isEmpty = false := by
    cases h : st.segments with
    | nil => exact absurd h hne
    | cons a l => rfl
  simp [handleExport, hne2]

/-- Witness for C2: the amended behavior at the concrete one-segment
session. -/
theorem c2_capture_unsupported_behavior_witness :
    exState.segments ≠ []
  ∧ missingAudioIds exState.segments exState.bufferIds = []
  ∧ ((handleExport false false exState).1.status = AppStatus.COMPLETED
      ∧ (handleExport false false exState).2.1 = some "Browser capture not supported."
      ∧ (handleExport false false exState).2.2 = false
      ∧ (handleExport false false exState).1.segments = exState.segments
      ∧ (handleExport false false exState).1.bufferIds = exState.bufferIds) :=
  ⟨by decide, by decide,
    c2_capture_unsupported_behavior exState (by decide) (by decide)⟩

/-- C4: evaluating the code at the failing input. Editing the translated
text of segment `seg-0` (which has a synthesized buffer) clears only the
segment's `audioUrl`; the id stays in the buffer store, `missingAudioIds`
stays empty — so export re-synthesizes nothing — and a scheduling pass still
finds (and would play) the stale buffer. -/
theorem c4_edit_keeps_stale_buffer :
    (handleTranslatedTextChange exState "seg-0" "edited").bufferIds = ["seg-0"]
  ∧ ((handleTranslatedTextChange exState "seg-0" "edited").segments.map
      (fun s => s.audioUrl)) = [none]
  ∧ missingAudioIds (handleTranslatedTextChange exState "seg-0" "edited").segments
      (handleTranslatedTextChange exState "seg-0" "edited").bufferIds = []
  ∧ (handleTranslatedTextChange exState "seg-0" "edited").bufferIds.contains "seg-0"
      = true := by
  refine ⟨by decide, by decide, by decide, by decide⟩

/-- C5, counterexample: from the stopped state with a still-active
`preview-tts` instance, starting a full-timeline pass schedules the new
segment instance while the old instance remains active — the transition does
not cancel it first. -/
theorem c5_full_preview_start_keeps_active :
    exState.isPlaying = false
  ∧ exState.activeIds = ["preview-tts"]
  ∧ (playFullPreview exState).activeIds = ["preview-tts", "seg-0"] := by
  refine ⟨by decide, by decide, by decide⟩

/-- C5 (amended): the stop transition, the single-segment preview and the
export path all cancel every active playback instance before (re)scheduling,
but starting a full-timeline pass from the stopped state does not — it
schedules on top of whatever instances are still active (the export conjunct
is stated for fully-buffered sessions, where the pre-capture auto-synthesis
loop is a no-op). -/
theorem c5_cancellation_per_transition :
    (∀ st : SessionState, st.isPlaying = true → (playFullPreview st).activeIds = [])
  ∧ (∀ st : SessionState, ∀ id : String, (∃ s ∈ st.segments, s.id = id) →
      (playPreviewSegment st id).activeIds = []
        ∨ (playPreviewSegment st id).activeIds = ["preview-tts"])
  ∧ (∀ h1 h2 : Bool, ∀ st : SessionState, st.segments ≠ [] →
      missingAudioIds st.segments st.bufferIds = [] → (h1 || h2) = true →
      (handleExport h1 h2 st).1.activeIds
        = scheduleAll [] (sortByStart st.segments) st.bufferIds)
  ∧ (∀ st : SessionState, st.isPlaying = false →
      (playFullPreview st).activeIds
        = scheduleAll st.activeIds (sortByStart st.segments) st.bufferIds) := by
  refine ⟨?_, ?_, ?_, ?_⟩
  · intro st h
    simp [playFullPreview, h]
  · intro st id hex
    have hsome : (st.segments.find? (fun s => s.id = id)).isSome := by
      rw [List.find?_isSome]
      obtain ⟨s, hs, hid⟩ := hex
      exact ⟨s, hs, by simp [hid]⟩
    have hnone : (st.segments.find? (fun s => s.id = id)).isNone = false := by
      cases hopt : st.segments.find? (fun s => s.id = id) with
      | none => rw [hopt] at hsome; simp at hsome
      | some v => rfl
    by_cases hbuf : id ∈ st.bufferIds
    · right
      simp [playPreviewSegment, hnone, hbuf, insertActive]
    · left
      simp [playPreviewSegment, hnone, hbuf]
  · intro h1 h2 st hne _hbuf hcap
    have hne2 : st.segments.isEmpty = false := by
      cases h : st.segments with
      | nil => exact absurd h hne
      | cons a l => rfl
    simp [handleExport, hne2, hcap]
  · intro st h
    simp [playFullPreview, h]

/-- Witness for C5: the stop transition from a playing session cancels its
active instance, and export on the fully-buffered concrete session schedules
only onto the cleared active set. -/
theorem c5_cancellation_per_transition_witness :
    ({ exState with isPlaying := true } : SessionState).isPlaying = true
  ∧ (playFullPreview { exState with isPlaying := true }).activeIds = []
  ∧ exState.segments ≠ []
  ∧ missingAudioIds exState.segments exState.bufferIds = []
  ∧ (true || false) = true
  ∧ (handleExport true false exState).1.activeIds
      = scheduleAll [] (sortByStart exState.segments) exState.bufferIds :=
  ⟨rfl, c5_cancellation_per_transition.1 { exState with isPlaying := true } rfl,
    by decide, by decide, rfl,
    c5_cancellation_per_transition.2.2.1 true false exState (by decide) (by decide) rfl⟩

/-! ### WAV theorems (C9) -/

/-- The encoder's output is exactly 44 header bytes plus the data. -/
theorem pcmToWav_length (pcm : List ℕ) (sr : ℕ) :
    (pcmToWav pcm sr).length = 44 + pcm.length := by
  simp [pcmToWav, u16le, u32le]
  omega

/-- The bytes after the 44-byte header are the unmodified PCM data. -/
theorem pcmToWav_drop44 (pcm : List ℕ) (sr : ℕ) :
    (pcmToWav pcm sr).drop 44 = pcm := by
  simp [pcmToWav, u16le, u32le]

/-- Decoding an encoded buffer recovers mono, the declared sample rate, and
the identical PCM bytes (the two 32-bit fields must fit their width). -/
theorem wavParse_pcmToWav (pcm : List ℕ) (sr : ℕ)
    (hlen : pcm.length < 4294967296) (hsr : sr < 4294967296) :
    wavParse (pcmToWav pcm sr) = some (1, sr, pcm) := by
  simp only [pcmToWav, u16le, u32le, List.cons_append, List.nil_append]
  rw [wavParse]
  rw [if_pos]
  · have hz : pcm.length % 256 + 256 * (pcm.length / 256 % 256)
        + 65536 * (pcm.length / 65536 % 256)
        + 16777216 * (pcm.length / 16777216 % 256) = pcm.length := by omega
    have hs : sr % 256 + 256 * (sr / 256 % 256) + 65536 * (sr / 65536 % 256)
        + 16777216 * (sr / 16777216 % 256) = sr := by omega
    rw [hz, hs, List.take_length]
  · refine ⟨rfl, rfl, rfl, by norm_num, by norm_num, rfl⟩

/-- C9: the WAV encoder emits exactly the 44-byte RIFF/WAVE header (the field
layout is `pcmToWav` itself, offset by offset) followed by the unmodified PCM
bytes — the output length is `44 + dataSize` and dropping the header returns
the data — and decoding an encoded buffer recovers the identical PCM samples
with the declared sample rate and mono channel count; `generateSpeech`
declares 24 kHz (`pcmToWav(bytes, 24000)`, line 156). -/
theorem c9_wav_layout_roundtrip :
    (∀ pcm : List ℕ, ∀ sr : ℕ, (pcmToWav pcm sr).length = 44 + pcm.length)
  ∧ (∀ pcm : List ℕ, ∀ sr : ℕ, (pcmToWav pcm sr).drop 44 = pcm)
  ∧ (∀ pcm : List ℕ, ∀ sr : ℕ, pcm.length < 4294967296 → sr < 4294967296 →
      wavParse (pcmToWav pcm sr) = some (1, sr, pcm))
  ∧ wavParse (pcmToWav [7, 8] 24000) = some (1, 24000, [7, 8]) :=
  ⟨pcmToWav_length, pcmToWav_drop44, wavParse_pcmToWav, by decide⟩

/-- Witness for C9: the round-trip at a two-byte PCM payload and the declared
24 kHz rate. -/
theorem c9_wav_layout_roundtrip_witness :
    ([7, 8] : List ℕ).length < 4294967296 ∧ (24000 : ℕ) < 4294967296 ∧
    wavParse (pcmToWav [7, 8] 24000) = some (1, 24000, [7, 8]) :=
  ⟨by norm_num, by norm_num,
    c9_wav_layout_roundtrip.2.2.1 [7, 8] 24000 (by norm_num) (by norm_num)⟩

/-! ### Speaker-map theorems (C10) -/

/-- The keys of the built speaker map are the speaker list itself. -/
theorem buildSpeakerMapAux_map_fst (dv : String) (i : ℕ) (l : List String) :
    (buildSpeakerMapAux dv i l).map Prod.fst = l := by
  induction l generalizing i with
  | nil => rfl
  | cons x xs ih => simp [buildSpeakerMapAux, ih]

/-- The map has one entry per speaker. -/
theorem buildSpeakerMapAux_length (dv : String) (i : ℕ) (l : List String) :
    (buildSpeakerMapAux dv i l).length = l.length := by
  induction l generalizing i with
  | nil => rfl
  | cons x xs ih => simp [buildSpeakerMapAux, ih]

/-- The `k`-th assigned voice is `voiceForIdx` at index `i + k`. -/
theorem buildSpeakerMapAux_snd_getD (dv : String) (i k : ℕ) (l : List String)
    (hk : k < l.length) :
    ((buildSpeakerMapAux dv i l).map Prod.snd).getD k "" = voiceForIdx dv (i + k) := by
  induction l generalizing i k with
  | nil => simp at hk
  | cons x xs ih =>
    cases k with
    | zero => simp [buildSpeakerMapAux]
    | succ m =>
      have hm : m < xs.length := by simpa using hk
      have hrec := ih (i + 1) m hm
      simpa [buildSpeakerMapAux, Nat.add_assoc, Nat.add_comm 1 m] using hrec

/-- Unfolding of the insertion-order dedup on a cons cell. -/
theorem dedupFirstAux_cons (seen : List String) (x : String) (xs : List String) :
    dedupFirstAux seen (x :: xs) =
      if x ∈ seen then dedupFirstAux seen xs
      else x :: dedupFirstAux (x :: seen) xs := by
  simp [dedupFirstAux]

/-- The insertion-order dedup produces distinct labels avoiding `seen`. -/
theorem dedupFirstAux_nodup (seen : List String) (l : List String) :
    (dedupFirstAux seen l).Nodup ∧ ∀ x ∈ dedupFirstAux seen l, x ∉ seen := by
  induction l generalizing seen with
  | nil => simp [dedupFirstAux]
  | cons x xs ih =>
    rw [dedupFirstAux_cons]
    by_cases hx : x ∈ seen
    · rw [if_pos hx]
      exact ih seen
    · rw [if_neg hx]
      obtain ⟨hnd, hmem⟩ := ih (x :: seen)
      refine ⟨List.nodup_cons.mpr ⟨fun hc => (hmem x hc) (by simp), hnd⟩, ?_⟩
      intro y hy
      rcases List.mem_cons.mp hy with rfl | hy2
      · exact hx
      · intro hc
        exact (hmem y hy2) (List.mem_cons_of_mem _ hc)

/-- `findIndex` recovers the position of a voice id taken from `VOICES`. -/
theorem findIdx_voices (d : ℕ) (hd : d < VOICES.length) :
    VOICES.findIdx? (fun v => v.id = (VOICES.getD d dfltVoice).id) = some d := by
  have hd5 : d < 5 := hd
  interval_cases d <;> decide

/-- For a default voice drawn from `VOICES`, every index — position 0
included — receives `VOICES[(defaultIdx + idx) % VOICES.length]`. -/
theorem voiceForIdx_valid (d : ℕ) (hd : d < VOICES.length) (k : ℕ) :
    voiceForIdx (VOICES.getD d dfltVoice).id k
      = (VOICES.getD ((d + k) % VOICES.length) dfltVoice).id := by
  cases k with
  | zero =>
    have h0 : voiceForIdx (VOICES.getD d dfltVoice).id 0
        = (VOICES.getD d dfltVoice).id := rfl
    rw [h0, Nat.add_zero, Nat.mod_eq_of_lt hd]
  | succ m =>
    have hstep : voiceForIdx (VOICES.getD d dfltVoice).id (m + 1)
        = (match VOICES.findIdx? (fun v => v.id = (VOICES.getD d dfltVoice).id) with
           | some d2 => (VOICES.getD ((d2 + (m + 1)) % VOICES.length) dfltVoice).id
           | none => (VOICES.getD ((m + 1 - 1) % VOICES.length) dfltVoice).id) := rfl
    rw [hstep, findIdx_voices d hd]

/-- Distinct positions of `VOICES` carry distinct voice ids. -/
theorem voices_getD_id_inj :
    ∀ a : ℕ, a < 5 → ∀ b : ℕ, b < 5 →
      (VOICES.getD a dfltVoice).id = (VOICES.getD b dfltVoice).id → a = b := by
  decide

/-- At most five speakers receive pairwise distinct voices. -/
theorem buildSpeakerMap_values_nodup (d : ℕ) (hd : d < VOICES.length)
    (speakers : List String) (hlen : speakers.length ≤ 5) :
    ((buildSpeakerMap (VOICES.getD d dfltVoice).id speakers).map Prod.snd).Nodup := by
  have h5 : VOICES.length = 5 := rfl
  have hvlen : ((buildSpeakerMap (VOICES.getD d dfltVoice).id speakers).map
      Prod.snd).length = speakers.length := by
    simp [buildSpeakerMap, buildSpeakerMapAux_length]
  rw [List.Nodup, List.pairwise_iff_getElem]
  intro i j hi hj hij
  intro heq
  rw [← List.getD_eq_getElem _ "" hi, ← List.getD_eq_getElem _ "" hj] at heq
  have hi2 : i < speakers.length := by rw [← hvlen]; exact hi
  have hj2 : j < speakers.length := by rw [← hvlen]; exact hj
  simp only [buildSpeakerMap] at heq
  rw [buildSpeakerMapAux_snd_getD _ 0 i speakers hi2,
    buildSpeakerMapAux_snd_getD _ 0 j speakers hj2, Nat.zero_add, Nat.zero_add,
    voiceForIdx_valid d hd i, voiceForIdx_valid d hd j] at heq
  have hmod := voices_getD_id_inj ((d + i) % VOICES.length)
    (by rw [h5]; exact Nat.mod_lt _ (by norm_num))
    ((d + j) % VOICES.length)
    (by rw [h5]; exact Nat.mod_lt _ (by norm_num)) heq
  rw [h5] at hmod
  omega

/-- C10: after analysis the detected speakers are the distinct labels in
order of first appearance; the speaker map keys them in that order; the
first speaker receives the selected default voice; speaker `k` receives
`VOICES[(indexOf(defaultVoice) + k) mod 5]`; up to five speakers receive
pairwise distinct voices; and the assignment depends only on the label
sequence and the selected default voice. -/
theorem c10_speaker_voice_assignment (d : ℕ) (hd : d < VOICES.length)
    (segs : List DubSegment) :
    ((buildSpeakerMap (VOICES.getD d dfltVoice).id (detectedSpeakers segs)).map
        Prod.fst = detectedSpeakers segs)
  ∧ (detectedSpeakers segs).Nodup
  ∧ (∀ s0 : String, ∀ rest : List String, detectedSpeakers segs = s0 :: rest →
      (buildSpeakerMap (VOICES.getD d dfltVoice).id (s0 :: rest)).headD ("", "")
        = (s0, (VOICES.getD d dfltVoice).id))
  ∧ (∀ k : ℕ, k < (detectedSpeakers segs).length →
      ((buildSpeakerMap (VOICES.getD d dfltVoice).id (detectedSpeakers segs)).map
          Prod.snd).getD k ""
        = (VOICES.getD ((d + k) % VOICES.length) dfltVoice).id)
  ∧ ((detectedSpeakers segs).length ≤ 5 →
      ((buildSpeakerMap (VOICES.getD d dfltVoice).id (detectedSpeakers segs)).map
          Prod.snd).Nodup)
  ∧ (∀ segs2 : List DubSegment, speakerLabels segs = speakerLabels segs2 →
      buildSpeakerMap (VOICES.getD d dfltVoice).id (detectedSpeakers segs2)
        = buildSpeakerMap (VOICES.getD d dfltVoice).id (detectedSpeakers segs)) := by
  refine ⟨buildSpeakerMapAux_map_fst _ 0 _, (dedupFirstAux_nodup [] _).1, ?_, ?_, ?_, ?_⟩
  · intro s0 rest hdet
    rfl
  · intro k hk
    rw [buildSpeakerMap, buildSpeakerMapAux_snd_getD _ 0 k _ hk, Nat.zero_add]
    exact voiceForIdx_valid d hd k
  · exact buildSpeakerMap_values_nodup d hd _
  · intro segs2 hlab
    rw [detectedSpeakers, detectedSpeakers, hlab]

/-- Witness for C10: default voice Puck (index 1), three segments spoken by
two speakers — the second speaker receives `VOICES[(1 + 1) % 5] = Fenrir`. -/
theorem c10_speaker_voice_assignment_witness :
    1 < VOICES.length
  ∧ 1 < (detectedSpeakers [exSeg, exSeg2, exSeg]).length
  ∧ ((buildSpeakerMap (VOICES.getD 1 dfltVoice).id
        (detectedSpeakers [exSeg, exSeg2, exSeg])).map Prod.snd).getD 1 ""
      = (VOICES.getD ((1 + 1) % VOICES.length) dfltVoice).id :=
  ⟨by decide, by decide,
    (c10_speaker_voice_assignment 1 (by decide) [exSeg, exSeg2, exSeg]).2.2.2.1 1
      (by decide)⟩

end Atwi
